import Mathlib

/-!
# Verification of the fake-news-detector text-classification pipeline

Shallow embedding of the repository's two source files, `app.py` and
`train_model.py`, over `List Char` as the model of Python strings
(restricted to the ASCII fragment of Python's character classes), with
the learned sklearn artifacts (logistic-regression classifier and TF-IDF
vectorizer) and the joblib artifact loader modelled from the spec where
the library code is external to the repository.
-/

/-- ASCII whitespace, the `\s` class of Python's `re` module
(space, tab, newline, carriage return, vertical tab, form feed). -/
def isSpaceChar (c : Char) : Bool :=
  c = ' ' || c = '\t' || c = '\n' || c = '\r' || c = '\x0b' || c = '\x0c'

/-- ASCII digit, the `\d` class. -/
def isDigitChar (c : Char) : Bool :=
  '0' ≤ c && c ≤ '9'

/-- ASCII uppercase letter. -/
def isUpperChar (c : Char) : Bool :=
  65 ≤ c.toNat && c.toNat ≤ 90

/-- ASCII word character, the `\w` class: letter, digit or underscore. -/
def isWordChar (c : Char) : Bool :=
  c.isAlpha || isDigitChar c || c = '_'

/-- Python's `str.lower` on one character (ASCII fragment): shift an
uppercase letter down by 32, leave everything else unchanged. -/
def charLower (c : Char) : Char :=
  if isUpperChar c then Char.ofNat (c.toNat + 32) else c

/-- Python's `str.lower` (ASCII fragment), applied characterwise. -/
def lowerStr (l : List Char) : List Char :=
  l.map charLower

/-- The substitution `re.sub(r"http\S+", "", text)`: scanning left to right, each match of
the literal `http` followed by a maximal nonempty run of non-whitespace
characters is deleted, and scanning resumes after the match.  When `http`
is followed by whitespace or the end of the string there is no match and
the scan advances; since no match can begin at `t`, `t`, `p` or at a
whitespace character (a match must begin with `h`), the scan may skip
past all five inspected characters at once. -/
def removeURLs : List Char → List Char
  | 'h' :: 't' :: 't' :: 'p' :: c :: rest =>
    if isSpaceChar c then
      'h' :: 't' :: 't' :: 'p' :: c :: removeURLs rest
    else
      removeURLs (rest.dropWhile (fun d => !isSpaceChar d))
  | c :: rest => c :: removeURLs rest
  | [] => []
termination_by l => l.length
decreasing_by
  · simp
    omega
  · have hlen := (List.dropWhile_sublist (p := fun d => !isSpaceChar d) (l := rest)).length_le
    simp only [List.length_cons]
    omega
  · simp only [List.length_cons]
    omega

/-- The substitution `re.sub(r"\d+", "", text)`: deleting every maximal run of digits is
deleting every digit character. -/
def removeNumbers (l : List Char) : List Char :=
  l.filter (fun c => !isDigitChar c)

/-- The substitution `re.sub(r"[^\w\s]", "", text)`: delete every character that is
neither a word character nor whitespace. -/
def removePunct (l : List Char) : List Char :=
  l.filter (fun c => isWordChar c || isSpaceChar c)

/-- Python's `str.strip()` (ASCII fragment): drop leading and trailing
whitespace, preserving internal whitespace. -/
def stripChars (l : List Char) : List Char :=
  ((l.dropWhile isSpaceChar).reverse.dropWhile isSpaceChar).reverse

/-- The four characters of the literal `http`. -/
def httpChars : List Char := ['h', 't', 't', 'p']

/-- Whether a match of the URL pattern (`http` followed by at least one
non-whitespace character) begins at the head of `l`. -/
def urlStartsAt (l : List Char) : Bool :=
  httpChars.isPrefixOf l &&
    (match l.drop 4 with
     | d :: _ => !isSpaceChar d
     | [] => false)

/-- Whether a match of the URL pattern begins at some position of `l`. -/
def hasUrlMatch : List Char → Bool
  | [] => false
  | c :: rest => urlStartsAt (c :: rest) || hasUrlMatch rest

/-- Step (2) of the normalization claim read literally: delete every
maximal nonempty run of non-whitespace characters immediately following
an occurrence of `http`, keeping the `http` itself. -/
def removeRunsAfterHttp : List Char → List Char
  | 'h' :: 't' :: 't' :: 'p' :: c :: rest =>
    if isSpaceChar c then
      'h' :: 't' :: 't' :: 'p' :: c :: removeRunsAfterHttp rest
    else
      'h' :: 't' :: 't' :: 'p' :: removeRunsAfterHttp (rest.dropWhile (fun d => !isSpaceChar d))
  | c :: rest => c :: removeRunsAfterHttp rest
  | [] => []
termination_by l => l.length
decreasing_by
  · simp
    omega
  · have hlen := (List.dropWhile_sublist (p := fun d => !isSpaceChar d) (l := rest)).length_le
    simp only [List.length_cons]
    omega
  · simp only [List.length_cons]
    omega

/-- URL removal as the amended claim words it, written independently of
`removeURLs`: wherever a match of the URL pattern begins, delete the
`http` together with the maximal run of non-whitespace characters that
follows it, and resume scanning after the match. -/
def specStripUrls : List Char → List Char
  | [] => []
  | c :: rest =>
    if urlStartsAt (c :: rest) then
      specStripUrls (((c :: rest).drop 4).dropWhile (fun d => !isSpaceChar d))
    else
      c :: specStripUrls rest
termination_by l => l.length
decreasing_by
  · have hlen := (List.dropWhile_sublist (p := fun d => !isSpaceChar d)
      (l := (c :: rest).drop 4)).length_le
    have hd : ((c :: rest).drop 4).length ≤ rest.length := by
      simp [List.length_drop]
    simp only [List.length_cons] at *
    omega
  · simp only [List.length_cons]
    omega

/-- The normalization pipeline exactly as the claim states it, with step
(2) read literally (the `http` itself is kept). -/
def specNormalizeLiteral (l : List Char) : List Char :=
  stripChars (removePunct (removeNumbers (removeRunsAfterHttp (lowerStr l))))

/-- The normalization pipeline as amended: step (2) deletes the matched
`http` together with the nonempty non-whitespace run that follows it. -/
def specNormalizeAmended (l : List Char) : List Char :=
  stripChars (removePunct (removeNumbers (specStripUrls (lowerStr l))))

namespace App

/-- Function `clean_text` from `app.py` (lines 28-34): lowercase, remove URLs,
remove numbers, remove punctuation, strip. -/
def clean_text (l : List Char) : List Char :=
  stripChars (removePunct (removeNumbers (removeURLs (lowerStr l))))

end App

namespace TrainModel

/-- Function `clean_text` from `train_model.py` (lines 20-25): lowercase, remove
URLs, remove numbers, remove punctuation, strip. -/
def clean_text (l : List Char) : List Char :=
  stripChars (removePunct (removeNumbers (removeURLs (lowerStr l))))

end TrainModel

namespace Model

/-- Label for fake articles, as encoded by the training pipeline
(`train_model.py` line 12). -/
def FAKE : ℕ := 0

/-- Label for real articles, as encoded by the training pipeline
(`train_model.py` line 13). -/
def REAL : ℕ := 1

/-- Modelled from the spec: the persisted state of the trained
logistic-regression classifier (sklearn `LogisticRegression`, external to
the repository) — one coefficient per vocabulary feature plus a bias
term. -/
structure ClassifierState (n : ℕ) where
  weights : Fin n → ℚ
  bias : ℚ

/-- Modelled from the spec: the linear score
`dot(weights, features) + bias`. -/
def score {n : ℕ} (st : ClassifierState n) (x : Fin n → ℚ) : ℚ :=
  (∑ i, st.weights i * x i) + st.bias

/-- Modelled from the spec: the predicted label of sklearn
`model.predict` — class 1 (REAL) when the linear score is strictly
positive, class 0 (FAKE) otherwise, so a score of exactly 0 resolves to
FAKE. -/
def predictLabel {n : ℕ} (st : ClassifierState n) (x : Fin n → ℚ) : ℕ :=
  if 0 < score st x then REAL else FAKE

/-- Modelled from the spec: the logistic function
`p(real) = 1 / (1 + exp(-score))`. -/
noncomputable def sigmoid (z : ℝ) : ℝ :=
  1 / (1 + Real.exp (-z))

/-- Modelled from the spec: `model.predict_proba` returns the pair
`(p(fake), p(real))` with `p(real) = sigmoid(score)` and
`p(fake) = 1 - p(real)`. -/
noncomputable def predictProba {n : ℕ} (st : ClassifierState n) (x : Fin n → ℚ) : ℝ × ℝ :=
  (1 - sigmoid ((score st x : ℚ) : ℝ), sigmoid ((score st x : ℚ) : ℝ))

/-- Modelled from the spec: the persisted state of the fitted TF-IDF
vectorizer (sklearn `TfidfVectorizer`, external to the repository) — an
ordered vocabulary of `n` tokens, one IDF weight per vocabulary entry,
and a fixed stop-word list.  The vocabulary is fixed: it is never
extended at inference time. -/
structure VectorizerState (n : ℕ) where
  vocab : Fin n → List Char
  idf : Fin n → ℚ
  stopWords : List (List Char)

/-- Modelled from the spec: tokenization on word boundaries — the
maximal runs of word characters of the text. -/
def tokenize : List Char → List (List Char)
  | [] => []
  | c :: rest =>
    if isWordChar c then
      ((c :: rest).takeWhile isWordChar) :: tokenize (rest.dropWhile isWordChar)
    else
      tokenize rest
termination_by l => l.length
decreasing_by
  · have hlen := (List.dropWhile_sublist (p := isWordChar) (l := rest)).length_le
    simp only [List.length_cons]
    omega
  · simp only [List.length_cons]
    omega

/-- Modelled from the spec: `vectorizer.transform` on one document —
tokenize, discard stop words, and give each vocabulary entry its term
count times its IDF weight.  A token absent from the vocabulary
contributes to no entry, and the dimension is fixed at `n`. -/
def transform {n : ℕ} (vs : VectorizerState n) (text : List Char) : Fin n → ℚ :=
  fun i =>
    (((tokenize text).filter (fun t => !vs.stopWords.contains t)).count (vs.vocab i))
      * vs.idf i

/-- Modelled from the spec: the state a persisted artifact file can be
in at inference load time. -/
inductive ArtifactFile (α : Type) where
  | good : α → ArtifactFile α
  | missing : ArtifactFile α
  | corrupt : ArtifactFile α

/-- Modelled from the spec: the exceptions `joblib.load` can raise — a
file-not-found error for a missing file, a deserialization error for a
corrupt one. -/
inductive JoblibError where
  | fileNotFound : JoblibError
  | unpickling : JoblibError

/-- Modelled from the spec: `joblib.load` returns the deserialized
artifact of a good file and raises on a missing or corrupt one. -/
def joblibLoad {α : Type} : ArtifactFile α → Except JoblibError α
  | .good a => .ok a
  | .missing => .error .fileNotFound
  | .corrupt => .error .unpickling

/-- How a failed load is surfaced: a caught `FileNotFoundError` shows an
error message and stops the session (`st.error` / `st.stop`), while any
other exception propagates uncaught to the framework. -/
inductive LoadFailure where
  | stoppedWithError : LoadFailure
  | uncaughtException : LoadFailure

end Model

namespace App

/-- Function `load_model` from `app.py` (lines 17-26): load the model
artifact, then the vectorizer artifact, inside one `try` block whose
`except FileNotFoundError` handler shows an error and stops; a pair is
returned only when both loads succeed. -/
def load_model {α β : Type} (fm : Model.ArtifactFile α) (fv : Model.ArtifactFile β) :
    Except Model.LoadFailure (α × β) :=
  match Model.joblibLoad fm with
  | .error .fileNotFound => .error .stoppedWithError
  | .error .unpickling => .error .uncaughtException
  | .ok m =>
    match Model.joblibLoad fv with
    | .error .fileNotFound => .error .stoppedWithError
    | .error .unpickling => .error .uncaughtException
    | .ok v => .ok (m, v)

/-- Function `predict_news` from `app.py` (lines 36-48) over the
modelled artifacts: clean the text, vectorize it, and return the
predicted label together with the probability pair. -/
noncomputable def predict_news {n : ℕ} (text : List Char) (st : Model.ClassifierState n)
    (vs : Model.VectorizerState n) : ℕ × (ℝ × ℝ) :=
  let cleaned := clean_text text
  let vec := Model.transform vs cleaned
  (Model.predictLabel st vec, Model.predictProba st vec)

end App

/-! ## Character-level lemmas -/

theorem charLower_not_upper (c : Char) : isUpperChar (charLower c) = false := by
  by_cases h : isUpperChar c = true
  · have h' := h
    simp only [isUpperChar, Bool.and_eq_true, decide_eq_true_eq] at h'
    obtain ⟨h65, h90⟩ := h'
    simp only [charLower, h, if_true]
    revert h65 h90
    generalize c.toNat = n
    intro h65 h90
    interval_cases n <;> decide
  · simp only [charLower, h, if_false]
    simpa using h

theorem charLower_charLower (c : Char) : charLower (charLower c) = charLower c := by
  have h := charLower_not_upper c
  conv_lhs => rw [charLower.eq_def]
  simp [h]

theorem charLower_eq_self {c : Char} (h : isUpperChar c = false) : charLower c = c := by
  simp [charLower, h]

theorem isSpaceChar_cases {c : Char} (h : isSpaceChar c = true) :
    c = ' ' ∨ c = '\t' ∨ c = '\n' ∨ c = '\r' ∨ c = '\x0b' ∨ c = '\x0c' := by
  simp only [isSpaceChar, Bool.or_eq_true, decide_eq_true_eq] at h
  tauto

theorem isSpaceChar_not_upper {c : Char} (h : isSpaceChar c = true) :
    isUpperChar c = false := by
  rcases isSpaceChar_cases h with h | h | h | h | h | h <;> subst h <;> decide

theorem isSpaceChar_not_h {c : Char} (h : isSpaceChar c = true) :
    ('h' == c) = false := by
  rcases isSpaceChar_cases h with h | h | h | h | h | h <;> subst h <;> decide

/-! ## Structural lemmas about the normalization steps -/

theorem removeURLs_sublist (l : List Char) : List.Sublist (removeURLs l) l := by
  induction l using removeURLs.induct with
  | case1 c rest h ih =>
    rw [removeURLs.eq_1, if_pos h]
    exact (((((ih.cons₂ _).cons₂ _).cons₂ _).cons₂ _).cons₂ _)
  | case2 c rest h ih =>
    rw [removeURLs.eq_1, if_neg h]
    refine ih.trans ((List.dropWhile_sublist _).trans ?_)
    exact ((((List.sublist_cons_self _ _).trans
      (List.sublist_cons_self _ _)).trans
      (List.sublist_cons_self _ _)).trans
      (List.sublist_cons_self _ _)).trans (List.sublist_cons_self _ _)
  | case3 c rest h ih =>
    rw [removeURLs.eq_2 c rest h]
    exact ih.cons₂ _
  | case4 =>
    simp [removeURLs.eq_3]

theorem stripChars_sublist (l : List Char) : List.Sublist (stripChars l) l := by
  unfold stripChars
  have h1 : List.Sublist (l.dropWhile isSpaceChar) l := List.dropWhile_sublist _
  have h2 := List.dropWhile_sublist (p := isSpaceChar)
    (l := (l.dropWhile isSpaceChar).reverse)
  have h3 := List.reverse_sublist.mpr h2
  rw [List.reverse_reverse] at h3
  exact h3.trans h1

theorem head?_dropWhile {α : Type} {p : α → Bool} {l : List α} {c : α}
    (h : (l.dropWhile p).head? = some c) : p c = false := by
  induction l with
  | nil => simp at h
  | cons a as ih =>
    rw [List.dropWhile_cons] at h
    by_cases hp : p a = true
    · rw [if_pos hp] at h
      exact ih h
    · rw [if_neg hp] at h
      simp only [List.head?_cons, Option.some.injEq] at h
      subst h
      simpa using hp

theorem stripChars_head {l : List Char} {c : Char}
    (h : (stripChars l).head? = some c) : isSpaceChar c = false := by
  unfold stripChars at h
  rw [List.head?_reverse] at h
  obtain ⟨t, ht⟩ := List.dropWhile_suffix (l := (l.dropWhile isSpaceChar).reverse) isSpaceChar
  have hx : (l.dropWhile isSpaceChar).reverse.getLast? = some c := by
    rw [← ht, List.getLast?_append, h]
    rfl
  rw [List.getLast?_reverse] at hx
  exact head?_dropWhile hx

theorem stripChars_getLast {l : List Char} {c : Char}
    (h : (stripChars l).getLast? = some c) : isSpaceChar c = false := by
  unfold stripChars at h
  rw [List.getLast?_reverse] at h
  exact head?_dropWhile h

/-! ## Membership facts about normalized output -/

theorem mem_lowerStr_facts {c : Char} {l : List Char} (h : c ∈ lowerStr l) :
    charLower c = c ∧ isUpperChar c = false := by
  obtain ⟨a, _, ha⟩ := List.mem_map.mp h
  rw [← ha]
  exact ⟨charLower_charLower a, charLower_not_upper a⟩

theorem clean_text_mem_facts {c : Char} {l : List Char} (h : c ∈ App.clean_text l) :
    charLower c = c ∧ isUpperChar c = false ∧ isDigitChar c = false ∧
      (isWordChar c || isSpaceChar c) = true := by
  have h1 : c ∈ removePunct (removeNumbers (removeURLs (lowerStr l))) :=
    (stripChars_sublist _).subset h
  have hw : (isWordChar c || isSpaceChar c) = true := by
    have := List.of_mem_filter h1
    simpa using this
  have h2 : c ∈ removeNumbers (removeURLs (lowerStr l)) :=
    (List.filter_sublist _).subset h1
  have hd : (!isDigitChar c) = true := by
    have := List.of_mem_filter h2
    simpa using this
  have h3 : c ∈ removeURLs (lowerStr l) := (List.filter_sublist _).subset h2
  have h4 : c ∈ lowerStr l := (removeURLs_sublist _).subset h3
  obtain ⟨hfix, hup⟩ := mem_lowerStr_facts h4
  exact ⟨hfix, hup, by simpa using hd, hw⟩

/-! ## Fixed-point lemmas for the normalization steps -/

theorem dropWhile_eq_self_of_head {α : Type} {p : α → Bool} {l : List α}
    (h : ∀ c, l.head? = some c → p c = false) : l.dropWhile p = l := by
  cases l with
  | nil => rfl
  | cons a as =>
    rw [List.dropWhile_cons, if_neg]
    simp [h a rfl]

theorem stripChars_eq_self {l : List Char}
    (h1 : ∀ c, l.head? = some c → isSpaceChar c = false)
    (h2 : ∀ c, l.getLast? = some c → isSpaceChar c = false) :
    stripChars l = l := by
  unfold stripChars
  rw [dropWhile_eq_self_of_head h1,
    dropWhile_eq_self_of_head (fun c hc => h2 c (by rwa [List.head?_reverse] at hc))]
  exact List.reverse_reverse l

theorem stripChars_stripChars (l : List Char) :
    stripChars (stripChars l) = stripChars l :=
  stripChars_eq_self (fun _ hc => stripChars_head hc) (fun _ hc => stripChars_getLast hc)

theorem hasUrlMatch_cons_false {c : Char} {rest : List Char}
    (h : hasUrlMatch (c :: rest) = false) :
    urlStartsAt (c :: rest) = false ∧ hasUrlMatch rest = false := by
  simpa [hasUrlMatch] using h

theorem urlStartsAt_http {c : Char} {rest : List Char} :
    urlStartsAt ('h' :: 't' :: 't' :: 'p' :: c :: rest) = !isSpaceChar c := by
  simp [urlStartsAt, httpChars, List.isPrefixOf]

theorem removeURLs_eq_self : ∀ {l : List Char}, hasUrlMatch l = false → removeURLs l = l := by
  intro l
  induction l using removeURLs.induct with
  | case1 c rest hs ih =>
    intro h
    have hr := (hasUrlMatch_cons_false (hasUrlMatch_cons_false
      (hasUrlMatch_cons_false (hasUrlMatch_cons_false
        (hasUrlMatch_cons_false h).2).2).2).2).2
    rw [removeURLs.eq_1, if_pos hs, ih hr]
  | case2 c rest hs ih =>
    intro h
    have hu : urlStartsAt ('h' :: 't' :: 't' :: 'p' :: c :: rest) = true := by
      rw [urlStartsAt_http]
      simp [show isSpaceChar c = false by simpa using hs]
    have := (hasUrlMatch_cons_false h).1
    rw [this] at hu
    exact absurd hu (by simp)
  | case3 c rest hshape ih =>
    intro h
    rw [removeURLs.eq_2 c rest hshape, ih (hasUrlMatch_cons_false h).2]
  | case4 =>
    intro _
    exact removeURLs.eq_3

theorem urlStartsAt_true_shape {l : List Char} (h : urlStartsAt l = true) :
    ∃ c rest, l = 'h' :: 't' :: 't' :: 'p' :: c :: rest ∧ isSpaceChar c = false := by
  rcases l with _ | ⟨a, _ | ⟨b, _ | ⟨d, _ | ⟨e, _ | ⟨f, r⟩⟩⟩⟩⟩
  · simp [urlStartsAt, httpChars, List.isPrefixOf] at h
  · simp [urlStartsAt, httpChars, List.isPrefixOf] at h
  · simp [urlStartsAt, httpChars, List.isPrefixOf] at h
  · simp [urlStartsAt, httpChars, List.isPrefixOf] at h
  · simp [urlStartsAt, httpChars, List.isPrefixOf] at h
  · have h2 : ((('h' == a) && (('t' == b) && (('t' == d) && (('p' == e) && true)))) &&
        !isSpaceChar f) = true := h
    simp only [Bool.and_eq_true, beq_iff_eq, Bool.and_true] at h2
    obtain ⟨⟨ha, hb, hd, he⟩, hf⟩ := h2
    subst ha
    subst hb
    subst hd
    subst he
    exact ⟨f, r, rfl, by simpa using hf⟩

theorem specStripUrls_eq_removeURLs : ∀ l : List Char, specStripUrls l = removeURLs l := by
  intro l
  induction l using removeURLs.induct with
  | case1 c rest hs ih =>
    have u1 : urlStartsAt ('h' :: 't' :: 't' :: 'p' :: c :: rest) = false := by
      rw [urlStartsAt_http, hs]
      rfl
    have u2 : urlStartsAt ('t' :: 't' :: 'p' :: c :: rest) = false := by
      simp [urlStartsAt, httpChars, List.isPrefixOf]
    have u3 : urlStartsAt ('t' :: 'p' :: c :: rest) = false := by
      simp [urlStartsAt, httpChars, List.isPrefixOf]
    have u4 : urlStartsAt ('p' :: c :: rest) = false := by
      simp [urlStartsAt, httpChars, List.isPrefixOf]
    have u5 : urlStartsAt (c :: rest) = false := by
      simp [urlStartsAt, httpChars, List.isPrefixOf, isSpaceChar_not_h hs]
    rw [specStripUrls.eq_2, u1, if_neg (by simp),
      specStripUrls.eq_2, u2, if_neg (by simp),
      specStripUrls.eq_2, u3, if_neg (by simp),
      specStripUrls.eq_2, u4, if_neg (by simp),
      specStripUrls.eq_2, u5, if_neg (by simp),
      ih, removeURLs.eq_1, if_pos hs]
  | case2 c rest hs ih =>
    have u1 : urlStartsAt ('h' :: 't' :: 't' :: 'p' :: c :: rest) = true := by
      rw [urlStartsAt_http]
      simp [show isSpaceChar c = false by simpa using hs]
    rw [specStripUrls.eq_2, u1, if_pos rfl]
    have hq : (fun d => !isSpaceChar d) c = true := by
      simp [show isSpaceChar c = false by simpa using hs]
    rw [show List.drop 4 ('h' :: 't' :: 't' :: 'p' :: c :: rest) = c :: rest from rfl,
      List.dropWhile_cons, if_pos hq, ih, removeURLs.eq_1, if_neg hs]
  | case3 c rest hshape ih =>
    have hu : urlStartsAt (c :: rest) = false := by
      cases hu : urlStartsAt (c :: rest) with
      | false => rfl
      | true =>
        obtain ⟨c₁, r₁, hl, _⟩ := urlStartsAt_true_shape hu
        obtain ⟨hc, hrest⟩ : c = 'h' ∧ rest = 't' :: 't' :: 'p' :: c₁ :: r₁ := by
          injection hl with h1 h2
          exact ⟨h1, h2⟩
        exact (hshape c₁ r₁ hc hrest).elim
    rw [specStripUrls.eq_2, hu, if_neg (by simp), ih, removeURLs.eq_2 c rest hshape]
  | case4 =>
    rw [specStripUrls.eq_1, removeURLs.eq_3]

/-! ## Composition lemmas for normalization -/

theorem lowerStr_eq_self {l : List Char} (h : ∀ c ∈ l, charLower c = c) :
    lowerStr l = l := by
  unfold lowerStr
  calc l.map charLower = l.map id := List.map_congr_left (fun a ha => h a ha)
    _ = l := List.map_id l

theorem isSpaceChar_not_digit {c : Char} (h : isSpaceChar c = true) :
    isDigitChar c = false := by
  rcases isSpaceChar_cases h with h | h | h | h | h | h <;> subst h <;> decide

theorem clean_text_fix {y : List Char}
    (hmem : ∀ c ∈ y, charLower c = c ∧ isDigitChar c = false ∧
      (isWordChar c || isSpaceChar c) = true)
    (hurl : hasUrlMatch y = false)
    (hstrip : stripChars y = y) :
    App.clean_text y = y := by
  show stripChars (removePunct (removeNumbers (removeURLs (lowerStr y)))) = y
  rw [lowerStr_eq_self (fun c hc => (hmem c hc).1),
    removeURLs_eq_self hurl,
    show removeNumbers y = y from
      List.filter_eq_self.mpr (fun c hc => by simp [(hmem c hc).2.1]),
    show removePunct y = y from
      List.filter_eq_self.mpr (fun c hc => by simp [(hmem c hc).2.2]),
    hstrip]

theorem hasUrlMatch_of_all_space {l : List Char}
    (h : ∀ c ∈ l, isSpaceChar c = true) : hasUrlMatch l = false := by
  induction l with
  | nil => rfl
  | cons c rest ih =>
    have hu : urlStartsAt (c :: rest) = false := by
      cases hu : urlStartsAt (c :: rest) with
      | false => rfl
      | true =>
        obtain ⟨c₁, r₁, hl, _⟩ := urlStartsAt_true_shape hu
        have hc : c = 'h' := by
          injection hl
        have hsp := h c (List.mem_cons_self c rest)
        rw [hc] at hsp
        exact absurd hsp (by decide)
    simp [hasUrlMatch, hu, ih (fun d hd => h d (List.mem_cons_of_mem _ hd))]

theorem clean_text_of_whitespace {l : List Char}
    (h : ∀ c ∈ l, isSpaceChar c = true) : App.clean_text l = [] := by
  show stripChars (removePunct (removeNumbers (removeURLs (lowerStr l)))) = []
  rw [lowerStr_eq_self
      (fun c hc => charLower_eq_self (isSpaceChar_not_upper (h c hc))),
    removeURLs_eq_self (hasUrlMatch_of_all_space h),
    show removeNumbers l = l from
      List.filter_eq_self.mpr (fun c hc => by simp [isSpaceChar_not_digit (h c hc)]),
    show removePunct l = l from
      List.filter_eq_self.mpr (fun c hc => by simp [h c hc])]
  unfold stripChars
  rw [List.dropWhile_eq_nil_iff.mpr h]
  rfl

/-! ## Lemmas about the modelled classifier and vectorizer -/

theorem sigmoid_pos (z : ℝ) : 0 < Model.sigmoid z := by
  unfold Model.sigmoid
  positivity

theorem sigmoid_lt_one (z : ℝ) : Model.sigmoid z < 1 := by
  unfold Model.sigmoid
  rw [div_lt_one (by positivity)]
  linarith [Real.exp_pos (-z)]

theorem sigmoid_gt_half_iff (z : ℝ) : 1/2 < Model.sigmoid z ↔ 0 < z := by
  unfold Model.sigmoid
  rw [lt_div_iff₀ (by positivity)]
  constructor
  · intro h
    have hexp : Real.exp (-z) < 1 := by linarith
    have := Real.exp_lt_one_iff.mp hexp
    linarith
  · intro h
    have hexp : Real.exp (-z) < 1 := Real.exp_lt_one_iff.mpr (by linarith)
    linarith

theorem sigmoid_zero : Model.sigmoid 0 = 1/2 := by
  unfold Model.sigmoid
  rw [neg_zero, Real.exp_zero]
  norm_num

theorem score_zero_vec {n : ℕ} (st : Model.ClassifierState n) :
    Model.score st (fun _ => 0) = st.bias := by
  unfold Model.score
  simp

theorem transform_eq_zero {n : ℕ} (vs : Model.VectorizerState n) {doc : List Char}
    (h : ∀ t ∈ Model.tokenize doc, ∀ i : Fin n, vs.vocab i ≠ t) :
    ∀ i, Model.transform vs doc i = 0 := by
  intro i
  unfold Model.transform
  have hnotmem : vs.vocab i ∉ (Model.tokenize doc).filter
      (fun t => !vs.stopWords.contains t) := by
    intro hmem
    exact h _ ((List.filter_sublist _).subset hmem) i rfl
  rw [List.count_eq_zero.mpr hnotmem]
  simp

theorem predictProba_facts {n : ℕ} (st : Model.ClassifierState n) (x : Fin n → ℚ) :
    (Model.predictProba st x).1 + (Model.predictProba st x).2 = 1 ∧
    0 ≤ (Model.predictProba st x).1 ∧ (Model.predictProba st x).1 ≤ 1 ∧
    0 ≤ (Model.predictProba st x).2 ∧ (Model.predictProba st x).2 ≤ 1 := by
  unfold Model.predictProba
  have h1 := sigmoid_pos ((Model.score st x : ℚ) : ℝ)
  have h2 := sigmoid_lt_one ((Model.score st x : ℚ) : ℝ)
  refine ⟨by ring, by simp only; linarith, by simp only; linarith,
    by simp only; linarith, by simp only; linarith⟩

/-! ## Concrete evaluations used by counterexamples and witnesses -/

theorem clean_text_eval_httpa : App.clean_text "httpa".data = [] := by
  simp [App.clean_text, removeURLs.eq_def, removeNumbers, removePunct, stripChars,
    lowerStr, charLower, isUpperChar, isSpaceChar, isDigitChar, isWordChar]

theorem clean_text_eval_ht1tpa : App.clean_text "ht1tpa".data = "httpa".data := by
  simp [App.clean_text, removeURLs.eq_def, removeNumbers, removePunct, stripChars,
    lowerStr, charLower, isUpperChar, isSpaceChar, isDigitChar, isWordChar]

theorem specNormalizeLiteral_eval_httpa :
    specNormalizeLiteral "httpa".data = "http".data := by
  simp [specNormalizeLiteral, removeRunsAfterHttp.eq_def, removeNumbers, removePunct,
    stripChars, lowerStr, charLower, isUpperChar, isSpaceChar, isDigitChar, isWordChar]

theorem clean_text_eval_hello : App.clean_text "hello  world".data = "hello  world".data := by
  simp [App.clean_text, removeURLs.eq_def, removeNumbers, removePunct, stripChars,
    lowerStr, charLower, isUpperChar, isSpaceChar, isDigitChar, isWordChar]

theorem hasUrlMatch_eval_hello : hasUrlMatch "hello  world".data = false := by
  simp [hasUrlMatch, urlStartsAt, httpChars, List.isPrefixOf, isSpaceChar]

theorem clean_text_eval_a1b : App.clean_text " a1b! ".data = "ab".data := by
  simp [App.clean_text, removeURLs.eq_def, removeNumbers, removePunct, stripChars,
    lowerStr, charLower, isUpperChar, isSpaceChar, isDigitChar, isWordChar]

theorem clean_text_eval_bbcc : App.clean_text "bb cc".data = "bb cc".data := by
  simp [App.clean_text, removeURLs.eq_def, removeNumbers, removePunct, stripChars,
    lowerStr, charLower, isUpperChar, isSpaceChar, isDigitChar, isWordChar]

theorem tokenize_eval_bbcc :
    Model.tokenize "bb cc".data = [['b', 'b'], ['c', 'c']] := by
  simp [Model.tokenize.eq_def, isWordChar, isDigitChar, isSpaceChar]

/-! ## Claim theorems -/

/-- C1 counterexample: reading step (2) literally — removing only the run
of non-whitespace characters that follows `http`, keeping `http` itself —
does not match the code: on input "httpa" the code's `clean_text` returns
the empty string while the literal pipeline returns "http". -/
theorem clean_text_literal_spec_cex :
    App.clean_text "httpa".data = [] ∧
    specNormalizeLiteral "httpa".data = "http".data ∧
    (App.clean_text "httpa".data == specNormalizeLiteral "httpa".data) = false := by
  refine ⟨clean_text_eval_httpa, specNormalizeLiteral_eval_httpa, ?_⟩
  rw [clean_text_eval_httpa, specNormalizeLiteral_eval_httpa]
  decide

/-- C1 (amended): `clean_text` applies exactly the five claimed steps in
the claimed order — lowercase, remove URL-pattern matches (where the
match includes the literal `http` itself together with the nonempty
non-whitespace run that follows it), remove digits, remove characters
that are neither word characters nor whitespace, and trim outer
whitespace — and is total on all strings, the empty string included. -/
theorem clean_text_spec_pipeline (l : List Char) :
    App.clean_text l = specNormalizeAmended l := by
  show stripChars (removePunct (removeNumbers (removeURLs (lowerStr l)))) =
    stripChars (removePunct (removeNumbers (specStripUrls (lowerStr l))))
  rw [specStripUrls_eq_removeURLs]

/-- C2: the normalization function of the training pipeline
(`train_model.py`) and the one of the inference service (`app.py`) are
extensionally equal — their bodies are the same composition of the same
five steps. -/
theorem clean_text_train_eq_app (l : List Char) :
    TrainModel.clean_text l = App.clean_text l := rfl

/-- C3 counterexample: `clean_text` is not idempotent.  On "ht1tpa",
digit removal manufactures a fresh URL-pattern match: the first
application returns "httpa", which a second application erases
entirely. -/
theorem clean_text_idem_cex :
    App.clean_text "ht1tpa".data = "httpa".data ∧
    App.clean_text (App.clean_text "ht1tpa".data) = [] ∧
    (App.clean_text (App.clean_text "ht1tpa".data) == App.clean_text "ht1tpa".data)
      = false := by
  refine ⟨clean_text_eval_ht1tpa, ?_, ?_⟩
  · rw [clean_text_eval_ht1tpa, clean_text_eval_httpa]
  · rw [clean_text_eval_ht1tpa, clean_text_eval_httpa]
    decide

/-- C3 (amended): `clean_text` is idempotent on every input whose
normalized output contains no occurrence of `http` immediately followed
by a non-whitespace character (no URL-pattern match). -/
theorem clean_text_idem_no_url (l : List Char)
    (h : hasUrlMatch (App.clean_text l) = false) :
    App.clean_text (App.clean_text l) = App.clean_text l := by
  apply clean_text_fix
  · intro c hc
    obtain ⟨h1, _, h3, h4⟩ := clean_text_mem_facts hc
    exact ⟨h1, h3, h4⟩
  · exact h
  · exact stripChars_stripChars _

/-- Witness for C3 (amended) at the concrete input "hello  world". -/
theorem clean_text_idem_no_url_witness :
    hasUrlMatch (App.clean_text "hello  world".data) = false ∧
      App.clean_text (App.clean_text "hello  world".data) =
        App.clean_text "hello  world".data := by
  have h : hasUrlMatch (App.clean_text "hello  world".data) = false := by
    rw [clean_text_eval_hello]
    exact hasUrlMatch_eval_hello
  exact ⟨h, clean_text_idem_no_url "hello  world".data h⟩

/-- C10: every character of the normalized output is a non-uppercase,
non-digit character that is a word character or whitespace, and the
output has no leading and no trailing whitespace. -/
theorem clean_text_canonical (l : List Char) :
    (∀ c ∈ App.clean_text l, isUpperChar c = false ∧ isDigitChar c = false ∧
      (isWordChar c || isSpaceChar c) = true) ∧
    (∀ c, (App.clean_text l).head? = some c → isSpaceChar c = false) ∧
    (∀ c, (App.clean_text l).getLast? = some c → isSpaceChar c = false) := by
  refine ⟨fun c hc => ?_, fun c hc => stripChars_head hc, fun c hc => stripChars_getLast hc⟩
  obtain ⟨_, h2, h3, h4⟩ := clean_text_mem_facts hc
  exact ⟨h2, h3, h4⟩

/-- Witness for C10 at the concrete input " a1b! ", whose normalized
output is "ab". -/
theorem clean_text_canonical_witness :
    (isUpperChar 'a' = false ∧ isDigitChar 'a' = false ∧
      (isWordChar 'a' || isSpaceChar 'a') = true) ∧
    isSpaceChar 'a' = false ∧ isSpaceChar 'b' = false := by
  obtain ⟨h1, h2, h3⟩ := clean_text_canonical " a1b! ".data
  refine ⟨h1 'a' ?_, h2 'a' ?_, h3 'b' ?_⟩
  · rw [clean_text_eval_a1b]
    decide
  · rw [clean_text_eval_a1b]
    decide
  · rw [clean_text_eval_a1b]
    decide

/-- C4: on a feature vector whose linear score is exactly 0 both class
probabilities are exactly 1/2 and the predicted label is FAKE (class 0);
in general the predicted label is REAL (class 1) exactly when p(real)
exceeds 1/2, so the tie at 1/2 resolves toward FAKE. -/
theorem predict_tie_break {n : ℕ} (st : Model.ClassifierState n) (x : Fin n → ℚ) :
    (Model.score st x = 0 →
      Model.predictLabel st x = Model.FAKE ∧
        (Model.predictProba st x).2 = 1/2 ∧ (Model.predictProba st x).1 = 1/2) ∧
    (Model.predictLabel st x = Model.REAL ↔ 1/2 < (Model.predictProba st x).2) := by
  constructor
  · intro h
    have hcast : ((Model.score st x : ℚ) : ℝ) = 0 := by
      rw [h]
      norm_num
    refine ⟨?_, ?_, ?_⟩
    · unfold Model.predictLabel
      rw [h]
      norm_num
    · show Model.sigmoid ((Model.score st x : ℚ) : ℝ) = 1/2
      rw [hcast, sigmoid_zero]
    · show 1 - Model.sigmoid ((Model.score st x : ℚ) : ℝ) = 1/2
      rw [hcast, sigmoid_zero]
      norm_num
  · constructor
    · intro h
      by_cases hs : 0 < Model.score st x
      · have hr : (0 : ℝ) < ((Model.score st x : ℚ) : ℝ) := by exact_mod_cast hs
        exact (sigmoid_gt_half_iff _).mpr hr
      · unfold Model.predictLabel at h
        rw [if_neg hs] at h
        exact absurd h (by norm_num [Model.FAKE, Model.REAL])
    · intro h
      have hr := (sigmoid_gt_half_iff ((Model.score st x : ℚ) : ℝ)).mp h
      have hs : 0 < Model.score st x := by exact_mod_cast hr
      unfold Model.predictLabel
      rw [if_pos hs]

/-- Witness for C4: a one-feature classifier with zero weights and zero
bias has score 0 on the zero vector and classifies it as FAKE. -/
theorem predict_tie_break_witness :
    Model.score (⟨fun _ => 0, 0⟩ : Model.ClassifierState 1) (fun _ => 0) = 0 ∧
      Model.predictLabel (⟨fun _ => 0, 0⟩ : Model.ClassifierState 1) (fun _ => 0) =
        Model.FAKE := by
  have hscore : Model.score (⟨fun _ => 0, 0⟩ : Model.ClassifierState 1) (fun _ => 0) = 0 := by
    simp [Model.score]
  exact ⟨hscore, ((predict_tie_break _ _).1 hscore).1⟩

/-- C5: for every input text and artifacts, the probability pair returned
by `predict_news` sums exactly to 1 (hence within the 1e-6 tolerance) and
each component lies in [0, 1]. -/
theorem predict_news_prob_invariant {n : ℕ} (text : List Char)
    (st : Model.ClassifierState n) (vs : Model.VectorizerState n) :
    (App.predict_news text st vs).2.1 + (App.predict_news text st vs).2.2 = 1 ∧
    |(App.predict_news text st vs).2.1 + (App.predict_news text st vs).2.2 - 1|
      ≤ 1/1000000 ∧
    0 ≤ (App.predict_news text st vs).2.1 ∧ (App.predict_news text st vs).2.1 ≤ 1 ∧
    0 ≤ (App.predict_news text st vs).2.2 ∧ (App.predict_news text st vs).2.2 ≤ 1 := by
  obtain ⟨hsum, h1, h2, h3, h4⟩ :=
    predictProba_facts st (Model.transform vs (App.clean_text text))
  refine ⟨hsum, ?_, h1, h2, h3, h4⟩
  rw [show (App.predict_news text st vs).2.1 + (App.predict_news text st vs).2.2 = 1
    from hsum]
  norm_num

/-- C6: when every token of the normalized input text is outside the
learned vocabulary, `transform` yields the all-zero feature vector (the
dimension stays fixed at the vocabulary size), and `predict_news` returns
the classifier's bias-only decision and bias-only probabilities. -/
theorem predict_news_oov {n : ℕ} (text : List Char) (st : Model.ClassifierState n)
    (vs : Model.VectorizerState n)
    (h : ∀ t ∈ Model.tokenize (App.clean_text text), ∀ i : Fin n, vs.vocab i ≠ t) :
    (∀ i, Model.transform vs (App.clean_text text) i = 0) ∧
    (App.predict_news text st vs).1 = (if 0 < st.bias then Model.REAL else Model.FAKE) ∧
    (App.predict_news text st vs).2 =
      (1 - Model.sigmoid ((st.bias : ℚ) : ℝ), Model.sigmoid ((st.bias : ℚ) : ℝ)) := by
  have hz := transform_eq_zero vs h
  have hvec : Model.transform vs (App.clean_text text) = (fun _ => 0) := funext hz
  refine ⟨hz, ?_, ?_⟩
  · show Model.predictLabel st (Model.transform vs (App.clean_text text)) = _
    unfold Model.predictLabel
    rw [hvec, score_zero_vec]
  · show Model.predictProba st (Model.transform vs (App.clean_text text)) = _
    unfold Model.predictProba
    rw [hvec, score_zero_vec]

/-- Witness for C6: with vocabulary {"qq"} the text "bb cc" has only
out-of-vocabulary tokens and vectorizes to zero. -/
theorem predict_news_oov_witness :
    Model.transform (⟨fun _ => ['q', 'q'], fun _ => 1, []⟩ : Model.VectorizerState 1)
      (App.clean_text "bb cc".data) (0 : Fin 1) = 0 := by
  have h : ∀ t ∈ Model.tokenize (App.clean_text "bb cc".data), ∀ i : Fin 1,
      (⟨fun _ => ['q', 'q'], fun _ => 1, []⟩ : Model.VectorizerState 1).vocab i ≠ t := by
    rw [clean_text_eval_bbcc, tokenize_eval_bbcc]
    decide
  exact (predict_news_oov "bb cc".data ⟨fun _ => 0, 0⟩ _ h).1 (0 : Fin 1)

/-- C7: an all-whitespace (or empty) input is not an error: it normalizes
to the empty string, vectorizes to the all-zero vector, and yields a
well-formed probability pair summing to 1. -/
theorem predict_news_empty_input {n : ℕ} (text : List Char)
    (st : Model.ClassifierState n) (vs : Model.VectorizerState n)
    (h : ∀ c ∈ text, isSpaceChar c = true) :
    App.clean_text text = [] ∧
    (∀ i, Model.transform vs (App.clean_text text) i = 0) ∧
    (App.predict_news text st vs).2.1 + (App.predict_news text st vs).2.2 = 1 := by
  have hcl : App.clean_text text = [] := clean_text_of_whitespace h
  have htok : ∀ t ∈ Model.tokenize (App.clean_text text), ∀ i : Fin n, vs.vocab i ≠ t := by
    rw [hcl, Model.tokenize.eq_1]
    simp
  exact ⟨hcl, transform_eq_zero vs htok,
    (predictProba_facts st (Model.transform vs (App.clean_text text))).1⟩

/-- Witness for C7 at the empty input string. -/
theorem predict_news_empty_input_witness :
    App.clean_text "".data = [] ∧
      (App.predict_news "".data (⟨fun _ => 0, 0⟩ : Model.ClassifierState 1)
          (⟨fun _ => ['q'], fun _ => 1, []⟩ : Model.VectorizerState 1)).2.1 +
        (App.predict_news "".data (⟨fun _ => 0, 0⟩ : Model.ClassifierState 1)
          (⟨fun _ => ['q'], fun _ => 1, []⟩ : Model.VectorizerState 1)).2.2 = 1 := by
  obtain ⟨h1, _, h3⟩ := predict_news_empty_input "".data
    (⟨fun _ => 0, 0⟩ : Model.ClassifierState 1)
    (⟨fun _ => ['q'], fun _ => 1, []⟩ : Model.VectorizerState 1) (by simp)
  exact ⟨h1, h3⟩

/-- C8: `load_model` returns a pair exactly when both artifact files are
good, and any missing or corrupt artifact produces a load failure — no
partial or degraded model is ever served. -/
theorem load_model_contract {α β : Type} (fm : Model.ArtifactFile α)
    (fv : Model.ArtifactFile β) :
    (∀ p : α × β, App.load_model fm fv = Except.ok p ↔
      fm = Model.ArtifactFile.good p.1 ∧ fv = Model.ArtifactFile.good p.2) ∧
    ((fm = Model.ArtifactFile.missing ∨ fm = Model.ArtifactFile.corrupt ∨
        fv = Model.ArtifactFile.missing ∨ fv = Model.ArtifactFile.corrupt) →
      ∃ e, App.load_model fm fv = Except.error e) := by
  constructor
  · intro p
    cases fm <;> cases fv <;> simp [App.load_model, Model.joblibLoad, Prod.ext_iff]
  · intro h
    cases fm <;> cases fv <;>
      first
        | exact ⟨_, rfl⟩
        | (rcases h with h | h | h | h <;> simp at h)

/-- Witness for C8: two good artifacts load as a pair; a missing model
file produces a load failure. -/
theorem load_model_contract_witness :
    App.load_model (Model.ArtifactFile.good (1 : ℕ)) (Model.ArtifactFile.good (2 : ℕ)) =
      Except.ok (1, 2) ∧
    (∃ e, App.load_model (Model.ArtifactFile.missing : Model.ArtifactFile ℕ)
      (Model.ArtifactFile.good (2 : ℕ)) = Except.error e) := by
  constructor
  · exact ((load_model_contract _ _).1 (1, 2)).mpr ⟨rfl, rfl⟩
  · exact (load_model_contract _ _).2 (Or.inl rfl)

/-- C9: prediction is deterministic — with the same loaded artifacts,
equal input texts give the identical feature vector, label and
probability pair, because the whole pipeline is a pure function of the
text and the artifact state. -/
theorem predict_news_deterministic {n : ℕ} (t₁ t₂ : List Char)
    (st : Model.ClassifierState n) (vs : Model.VectorizerState n) (h : t₁ = t₂) :
    App.predict_news t₁ st vs = App.predict_news t₂ st vs ∧
    Model.transform vs (App.clean_text t₁) = Model.transform vs (App.clean_text t₂) := by
  subst h
  exact ⟨rfl, rfl⟩

/-- Witness for C9 at the concrete input "abc". -/
theorem predict_news_deterministic_witness :
    App.predict_news "abc".data (⟨fun _ => 0, 0⟩ : Model.ClassifierState 1)
        (⟨fun _ => ['q'], fun _ => 1, []⟩ : Model.VectorizerState 1) =
      App.predict_news "abc".data (⟨fun _ => 0, 0⟩ : Model.ClassifierState 1)
        (⟨fun _ => ['q'], fun _ => 1, []⟩ : Model.VectorizerState 1) :=
  (predict_news_deterministic "abc".data "abc".data _ _ rfl).1

